import Mathlib

/-!
Shallow embedding of the recipe-management REST backend (app-api).

The source of authority is the repository code under `app/`:
`recipe/views.py` (RecipeViewset, TagViewset), `recipe/urls.py`,
`core/management/commands/wait_for_db.py`, and the test suites.
The ORM models (`core/models.py`) and the serializers
(`recipe/serializers.py`, `user/serializers.py`) are part of the
repository but their files are not available; definitions that embed
them are modelled from the specification and marked as such in their
doc comments.

Machine-level conventions: Python `str` becomes `String` (sometimes
`List Char` for character-level reasoning), Python `int` becomes
`Int`/`Nat`, Django querysets become `List` pipelines, exceptions
become `Except`.
-/

namespace RecipeApp

/-- A stored user row.  `core/models.py` defines the custom user model
keyed by email; the fields here are the ones the claims mention. -/
structure User where
  id : Nat
  email : String
  name : String
  deriving Repr, DecidableEq

/-- A stored tag row: `Tag = {id, owner user, name}` from `core/models.py`
(creation exercised in `core/tests/test_models.py`). -/
structure Tag where
  id : Nat
  user : Nat
  name : String
  deriving Repr, DecidableEq

/-- A stored recipe row, per the data model in the spec and
`recipe/tests/test_recipe_api.py` (`create_recipe`).  `price` is the
decimal price in hundredths; `tags` is the many-to-many association,
kept as the list of associated tag ids; `image` is the optional stored
file reference. -/
structure Recipe where
  id : Nat
  user : Nat
  title : String
  time_minutes : Nat
  price : Int
  description : String
  link : String
  image : Option String := none
  tags : List Nat := []
  deriving Repr, DecidableEq

/-- The database state threaded through each request handler. -/
structure DB where
  users : List User
  recipes : List Recipe
  tags : List Tag
  nextUserId : Nat
  nextRecipeId : Nat
  nextTagId : Nat
  deriving Repr, DecidableEq

/-- Python exceptions that the embedded handlers can raise.
`valueError` is what `int()` raises on a non-numeric token;
`validationError` is the framework's `ValidationError`, the only
exception of the two the framework turns into a client error. -/
inductive PyExc where
  | valueError
  | validationError
  deriving Repr, DecidableEq

/-- Modelled from the spec: the framework's error taxonomy maps
`ValidationFailure` to HTTP 400 (a client error); an exception outside
the taxonomy propagates out of the view and is surfaced as an HTTP 500
server error. -/
def PyExc.isClientError : PyExc → Bool
  | .validationError => true
  | .valueError => false

/-- Python `str.split(",")` on a character list: split at every comma,
keeping empty pieces (so `"".split(",") == [""]`). -/
def splitCommaAux : List Char → List Char → List (List Char)
  | [], acc => [acc.reverse]
  | c :: cs, acc =>
      if c = ',' then acc.reverse :: splitCommaAux cs []
      else splitCommaAux cs (c :: acc)

/-- Accumulate decimal digits; any non-digit character means the token
is not an integer literal. -/
def parseDigitsAux : List Char → Nat → Option Nat
  | [], acc => some acc
  | c :: cs, acc =>
      if c.isDigit then parseDigitsAux cs (acc * 10 + (c.toNat - '0'.toNat))
      else none

/-- A non-empty all-digit token as a natural number. -/
def parseDigits : List Char → Option Nat
  | [] => none
  | c :: cs => parseDigitsAux (c :: cs) 0

/-- Python `int()` on one token: an optional sign followed by at least
one digit; anything else raises `ValueError`, embedded as `none`. -/
def pyInt : List Char → Option Int
  | '-' :: rest => (parseDigits rest).map fun n => -(n : Int)
  | '+' :: rest => (parseDigits rest).map fun n => (n : Int)
  | cs => (parseDigits cs).map fun n => (n : Int)

/-- `RecipeViewset._params_to_ints` (`recipe/views.py` lines 46-48):
`[int(str_id) for str_id in qs.split(",")]`.  The whole comprehension
fails as soon as one token fails to parse. -/
def params_to_ints (qs : String) : Option (List Int) :=
  (splitCommaAux qs.data []).mapM pyInt

/-- Python truthiness of `request.query_params.get("tags")`:
`None` and the empty string are falsy, any other string is truthy
(the `if tags:` test in `get_queryset`). -/
def truthy : Option String → Bool
  | none => false
  | some s => decide (s ≠ "")

/-- The comparison used by `order_by("-id")`: descending recipe id. -/
def idDesc (a b : Recipe) : Prop := b.id ≤ a.id

instance : DecidableRel idDesc := fun a b => Nat.decLe b.id a.id

instance : IsTotal Recipe idDesc :=
  ⟨fun a b => (Nat.le_total a.id b.id).symm⟩

instance : IsTrans Recipe idDesc :=
  ⟨fun _ _ _ hab hbc => Nat.le_trans hbc hab⟩

/-- `order_by("-id")` on a queryset: sort by descending id. -/
def orderByIdDesc (l : List Recipe) : List Recipe :=
  List.insertionSort idDesc l

/-- `.distinct()` on a queryset: collapse duplicate result rows. -/
def distinctRows (l : List Recipe) : List Recipe :=
  l.dedup

/-- The SQL join produced by `filter(tags__id__in=tag_ids)`: each
recipe contributes one result row per associated tag whose id is in
`tag_ids` (hence the `.distinct()` in the source). -/
def tagJoinFilter (tag_ids : List Int) (l : List Recipe) : List Recipe :=
  l.flatMap fun r =>
    (r.tags.filter fun tid => tag_ids.contains (Int.ofNat tid)).map fun _ => r

/-- `RecipeViewset.get_queryset` (`recipe/views.py` lines 50-63):
start from all recipes; if the `tags` query parameter is truthy, parse
it with `_params_to_ints` (uncaught `ValueError` on a bad token) and
keep recipes having a tag whose id is in the parsed list; finally
restrict to the requesting user's recipes, order by descending id and
deduplicate. -/
def recipe_get_queryset (db : DB) (u : Nat) (tagsParam : Option String) :
    Except PyExc (List Recipe) := do
  let queryset := db.recipes
  let queryset ←
    if truthy tagsParam then
      match params_to_ints (tagsParam.getD "") with
      | none => Except.error PyExc.valueError
      | some tag_ids => Except.ok (tagJoinFilter tag_ids queryset)
    else Except.ok queryset
  Except.ok (distinctRows (orderByIdDesc (queryset.filter fun r => r.user = u)))

/-- The comparison used by `order_by("-name")`: descending tag name
(lexicographic string order). -/
def nameDesc (a b : Tag) : Prop := b.name ≤ a.name

instance : DecidableRel nameDesc := fun a b =>
  inferInstanceAs (Decidable (b.name ≤ a.name))

instance : IsTotal Tag nameDesc :=
  ⟨fun a b => (le_total a.name b.name).symm⟩

instance : IsTrans Tag nameDesc :=
  ⟨fun _ _ _ hab hbc => le_trans hbc hab⟩

/-- `TagViewset.get_queryset` (`recipe/views.py` lines 102-103):
`self.queryset.filter(user=self.request.user).order_by("-name")`. -/
def tag_get_queryset (db : DB) (u : Nat) : List Tag :=
  List.insertionSort nameDesc (db.tags.filter fun t => t.user = u)

/-- Modelled from the spec: the framework's update/destroy mixins on
`TagViewset` look the target object up inside `get_queryset` by id and
answer 404 ("object absent or not owned, indistinguishable to the
caller by design") when it is not there. -/
def tag_get_object (db : DB) (u : Nat) (tid : Nat) : Option Tag :=
  (tag_get_queryset db u).find? fun t => t.id = tid

/-- `PATCH /tags/{id}/` via the update mixin: rename the tag when the
scoped lookup finds it, else 404.  Returns (status, new state). -/
def tag_update (db : DB) (u : Nat) (tid : Nat) (newName : String) : Nat × DB :=
  match tag_get_object db u tid with
  | none => (404, db)
  | some t =>
      (200, { db with
        tags := db.tags.map fun x => if x.id = t.id then { x with name := newName } else x })

/-- `DELETE /tags/{id}/` via the destroy mixin: remove the tag when the
scoped lookup finds it, else 404.  Returns (status, new state). -/
def tag_destroy (db : DB) (u : Nat) (tid : Nat) : Nat × DB :=
  match tag_get_object db u tid with
  | none => (404, db)
  | some t =>
      (204, { db with tags := db.tags.filter fun x => x.id ≠ t.id })

/-- The lookup key of tag get-or-create: same owner, exact name. -/
def tagMatch (u : Nat) (n : String) (t : Tag) : Bool :=
  t.user = u && t.name = n

/-- Modelled from the spec: `recipe/serializers.py` is not available;
its `_get_or_create_tags` resolves one tag name by looking up an
existing Tag owned by the current user with that exact name, reusing
it when found, and otherwise creating a new Tag owned by that user. -/
def getOrCreateTag (db : DB) (u : Nat) (name : String) : Tag × DB :=
  match db.tags.find? (tagMatch u name) with
  | some t => (t, db)
  | none =>
      let t : Tag := ⟨db.nextTagId, u, name⟩
      (t, { db with tags := db.tags ++ [t], nextTagId := db.nextTagId + 1 })

/-- Modelled from the spec: resolve a nested list of tag names in input
order, threading the store through the get-or-create of each name, and
return the resolved tag ids in order. -/
def resolveTags (db : DB) (u : Nat) : List String → List Nat × DB
  | [] => ([], db)
  | n :: ns =>
      let (t, db1) := getOrCreateTag db u n
      let (ids, db2) := resolveTags db1 u ns
      (t.id :: ids, db2)

/-- The tag names currently owned by user `u` — the projection the
get-or-create claims speak about. -/
def userTagNames (db : DB) (u : Nat) : List String :=
  (db.tags.filter fun t => t.user = u).map Tag.name

/-- An update payload for `PATCH`/`PUT /recipes/{id}/`.  Every editable
field is optional; `user` is the field the ownership claims are about. -/
structure UpdatePayload where
  title : Option String := none
  time_minutes : Option Nat := none
  price : Option Int := none
  description : Option String := none
  link : Option String := none
  user : Option Nat := none
  deriving Repr, DecidableEq

/-- Modelled from the spec: `recipe/serializers.py` is not available;
the recipe serializer's update writes the editable fields present in
the payload onto the instance and never writes the owner field — a
`user` entry in the payload is ignored rather than rejected. -/
def recipe_apply_update (r : Recipe) (p : UpdatePayload) : Recipe :=
  { r with
    title := p.title.getD r.title
    time_minutes := p.time_minutes.getD r.time_minutes
    price := p.price.getD r.price
    description := p.description.getD r.description
    link := p.link.getD r.link }

/-- Scoped object lookup for detail routes on `RecipeViewset`:
`get_object` searches `get_queryset`, which is filtered to the
requesting user's recipes, so another user's recipe answers 404. -/
def recipe_get_object (db : DB) (u : Nat) (rid : Nat) : Option Recipe :=
  (db.recipes.filter fun r => r.user = u).find? fun r => r.id = rid

/-- `PATCH`/`PUT /recipes/{id}/`: look the recipe up in the
caller-scoped queryset, apply the serializer update, answer 200 with
the new state, or 404 when the recipe is absent or not owned. -/
def recipe_update (db : DB) (u : Nat) (rid : Nat) (p : UpdatePayload) : Nat × DB :=
  match recipe_get_object db u rid with
  | none => (404, db)
  | some r =>
      (200, { db with
        recipes := db.recipes.map fun x =>
          if x.id = r.id && x.user = u then recipe_apply_update x p else x })

/-- An uploaded multipart payload for `upload-image`.  Modelled from
the spec: whether the payload decodes as a valid image is delegated to
the framework's image field, so the embedding carries the decodability
verdict; `ref` is the stored file reference produced on success. -/
structure ImagePayload where
  decodes : Bool
  ref : String
  deriving Repr, DecidableEq

/-- `RecipeViewset.upload_image` (`recipe/views.py` lines 77-86):
fetch the scoped recipe, validate the image serializer; on success
save and answer 200 with the stored reference, otherwise answer 400
without writing.  Returns (status, new state, reference in body). -/
def upload_image (db : DB) (u : Nat) (rid : Nat) (p : ImagePayload) :
    Nat × DB × Option String :=
  match recipe_get_object db u rid with
  | none => (404, db, none)
  | some r =>
      if p.decodes then
        (200,
         { db with
           recipes := db.recipes.map fun x =>
             if x.id = r.id && x.user = u then { x with image := some p.ref } else x },
         some p.ref)
      else (400, db, none)

/-- Modelled from the spec: `core/models.py` is not available; the user
factory normalizes the email by lowercasing the domain part after the
(last) `@` while preserving the local part exactly.  `splitAtLastAt`
splits a character list at its last `@`, returning `none` when there
is no `@`. -/
def splitAtLastAt : List Char → Option (List Char × List Char)
  | [] => none
  | c :: cs =>
      match splitAtLastAt cs with
      | some (l, d) => some (c :: l, d)
      | none => if c = '@' then some ([], cs) else none

/-- Email normalization on character lists: lowercase the domain part
after the last `@`, keep the local part; an email without `@` is left
unchanged. -/
def normalizeEmailList (cs : List Char) : List Char :=
  match splitAtLastAt cs with
  | none => cs
  | some (l, d) => l ++ '@' :: d.map Char.toLower

/-- Email normalization on strings, delegating to the character-list
version. -/
def normalize_email (email : String) : String :=
  ⟨normalizeEmailList email.data⟩

/-- Modelled from the spec: `core/models.py` is not available; the user
factory (`create_user`) raises `ValueError` on an empty email and
otherwise stores the user with the normalized email
(behaviour exercised by `core/tests/test_models.py`). -/
def create_user (db : DB) (email : String) (name : String) :
    Except PyExc (User × DB) :=
  if email = "" then Except.error PyExc.valueError
  else
    let u : User := ⟨db.nextUserId, normalize_email email, name⟩
    Except.ok (u, { db with users := db.users ++ [u], nextUserId := db.nextUserId + 1 })

/-- Minimum password length enforced by the user serializer: 5, per
`test_password_too_short_error` ("less than 5 characters"). -/
def MIN_PASSWORD_LENGTH : Nat := 5

/-- Modelled from the spec: `user/serializers.py` and `user/views.py`
are not available; `POST /users/create/` validates the payload (400
when the email is already taken or the password is under the minimum
length) and only writes the user row when validation passes.  Returns
(status, new state). -/
def create_user_endpoint (db : DB) (email pw name : String) : Nat × DB :=
  if pw.length < MIN_PASSWORD_LENGTH then (400, db)
  else if db.users.any (fun u => u.email = normalize_email email) then (400, db)
  else
    match create_user db email name with
    | Except.error _ => (400, db)
    | Except.ok (_, db') => (201, db')

/-- One outcome of `self.check(databases=["default"])` inside
`wait_for_db`: success, one of the two caught exception types
(`Psycopg2Error`, `OperationalError`), or any other exception. -/
inductive CheckResult where
  | ok
  | psycopg2Error
  | operationalError
  | otherError
  deriving Repr, DecidableEq

/-- What a run of the `wait_for_db` loop did: returned after the first
successful check, escaped with an uncaught exception, or is still
looping when the supplied outcome script ran out.  Each constructor
carries the number of `check` calls made and the number of `sleep(1)`
calls made. -/
inductive WaitOutcome where
  | success (checks sleeps : Nat)
  | raised (checks sleeps : Nat)
  | pending (checks sleeps : Nat)
  deriving Repr, DecidableEq

/-- Bump the counters of an outcome by one check and one sleep — the
effect of one failed loop iteration that preceded it. -/
def WaitOutcome.afterRetry : WaitOutcome → WaitOutcome
  | .success c s => .success (c + 1) (s + 1)
  | .raised c s => .raised (c + 1) (s + 1)
  | .pending c s => .pending (c + 1) (s + 1)

/-- `Command.handle` of `wait_for_db`
(`core/management/commands/wait_for_db.py` lines 13-24), run against a
script of successive `check` outcomes: loop while `db_up is False`,
one `check` per iteration; a `Psycopg2Error` or `OperationalError` is
caught and followed by `time.sleep(1)`; any other exception escapes;
the first successful check ends the loop. -/
def wait_for_db_handle : List CheckResult → WaitOutcome
  | [] => .pending 0 0
  | r :: rs =>
      match r with
      | .ok => .success 1 0
      | .psycopg2Error => (wait_for_db_handle rs).afterRetry
      | .operationalError => (wait_for_db_handle rs).afterRetry
      | .otherError => .raised 1 0

/-! ### Helper lemmas about the queryset pipeline -/

lemma contains_int_iff (l : List Int) (a : Int) : l.contains a = true ↔ a ∈ l := by
  simp [List.contains, List.elem_iff]

lemma mem_orderByIdDesc {x : Recipe} {l : List Recipe} :
    x ∈ orderByIdDesc l ↔ x ∈ l :=
  (List.perm_insertionSort idDesc l).mem_iff

lemma pairwise_orderByIdDesc (l : List Recipe) :
    (orderByIdDesc l).Pairwise idDesc :=
  List.sorted_insertionSort idDesc l

lemma mem_distinctRows {x : Recipe} {l : List Recipe} :
    x ∈ distinctRows l ↔ x ∈ l :=
  List.mem_dedup

lemma nodup_distinctRows (l : List Recipe) : (distinctRows l).Nodup :=
  List.nodup_dedup l

lemma pairwise_distinctRows {l : List Recipe} (h : l.Pairwise idDesc) :
    (distinctRows l).Pairwise idDesc :=
  List.Pairwise.sublist (List.dedup_sublist l) h

lemma mem_tagJoinFilter {x : Recipe} {T : List Int} {l : List Recipe} :
    x ∈ tagJoinFilter T l ↔ x ∈ l ∧ ∃ tid ∈ x.tags, Int.ofNat tid ∈ T := by
  constructor
  · intro hx
    rcases List.mem_flatMap.1 hx with ⟨a, ha, hxa⟩
    rcases List.mem_map.1 hxa with ⟨tid, htid, rfl⟩
    rcases List.mem_filter.1 htid with ⟨htags, hc⟩
    exact ⟨ha, tid, htags, (contains_int_iff T (Int.ofNat tid)).1 hc⟩
  · rintro ⟨hx, tid, htid, hT⟩
    refine List.mem_flatMap.2 ⟨x, hx, List.mem_map.2 ⟨tid, ?_, rfl⟩⟩
    exact List.mem_filter.2 ⟨htid, (contains_int_iff T (Int.ofNat tid)).2 hT⟩

/-- The final stage shared by every branch of `get_queryset`: user
scoping, ordering, deduplication. -/
lemma mem_finalize {x : Recipe} {l : List Recipe} {u : Nat} :
    x ∈ distinctRows (orderByIdDesc (l.filter fun r => r.user = u)) ↔
      x ∈ l ∧ x.user = u := by
  rw [mem_distinctRows, mem_orderByIdDesc, List.mem_filter]
  simp

/-! ### A concrete store used by the witnesses, mirroring the fixtures
of `test_filter_by_tags`: three recipes of user 1 (two tagged), one
recipe of user 2. -/

def sampleDB : DB where
  users := [⟨1, "test@example.com", "Test Name"⟩, ⟨2, "other_user@example.com", "other user"⟩]
  recipes :=
    [{ id := 1, user := 1, title := "recipe1", time_minutes := 22, price := 525,
       description := "Sample description", link := "https://localhost.com", tags := [1] },
     { id := 2, user := 1, title := "recipe2", time_minutes := 22, price := 525,
       description := "Sample description", link := "https://localhost.com", tags := [2] },
     { id := 3, user := 1, title := "recipe3", time_minutes := 22, price := 525,
       description := "Sample description", link := "https://localhost.com" },
     { id := 4, user := 2, title := "other recipe", time_minutes := 10, price := 300,
       description := "Sample description", link := "https://localhost.com", tags := [1] }]
  tags := [⟨1, 1, "t1"⟩, ⟨2, 1, "t2"⟩]
  nextUserId := 3
  nextRecipeId := 5
  nextTagId := 3

/-! ### Claim theorems -/

/-- C1: for every authenticated user `u` and every GET of the recipe
list with a `tags` parameter parsing to the id set `T`, the result is
exactly the recipes owned by `u` having at least one tag in `T`, each
appearing once, ordered by descending recipe id, and never a recipe of
another user. -/
theorem recipe_list_filter_by_tags (db : DB) (u : Nat) (s : String) (T : List Int)
    (hs : s ≠ "") (hT : params_to_ints s = some T) :
    ∃ l, recipe_get_queryset db u (some s) = Except.ok l
      ∧ (∀ r, r ∈ l ↔ r ∈ db.recipes ∧ r.user = u ∧ ∃ tid ∈ r.tags, Int.ofNat tid ∈ T)
      ∧ l.Nodup
      ∧ l.Pairwise idDesc
      ∧ ∀ r ∈ l, r.user = u := by
  have htr : truthy (some s) = true := by
    simp [truthy, hs]
  refine ⟨distinctRows (orderByIdDesc
      ((tagJoinFilter T db.recipes).filter fun r => r.user = u)), ?_, ?_, ?_, ?_, ?_⟩
  · simp only [recipe_get_queryset, htr, if_true, Option.getD_some, hT]
    rfl
  · intro r
    rw [mem_finalize, mem_tagJoinFilter]
    tauto
  · exact nodup_distinctRows _
  · exact pairwise_distinctRows (pairwise_orderByIdDesc _)
  · intro r hr
    exact (mem_finalize.1 hr).2

/-- C1 witness: on the concrete store, user 1, `tags=1,2`. -/
theorem recipe_list_filter_by_tags_witness :
    ∃ l, recipe_get_queryset sampleDB 1 (some "1,2") = Except.ok l
      ∧ (∀ r, r ∈ l ↔ r ∈ sampleDB.recipes ∧ r.user = 1 ∧ ∃ tid ∈ r.tags, Int.ofNat tid ∈ [1, 2])
      ∧ l.Nodup
      ∧ l.Pairwise idDesc
      ∧ ∀ r ∈ l, r.user = 1 :=
  recipe_list_filter_by_tags sampleDB 1 "1,2" [1, 2] (by decide) (by decide)

/-- C3: a `tags` parameter with a non-numeric token makes
`_params_to_ints` raise an uncaught `ValueError`; the exception is not
one the framework maps to a client error, so the request fails with a
server error, contradicting the claimed 400 `ValidationFailure`. -/
theorem bad_tag_token_uncaught_value_error (db : DB) (u : Nat) :
    recipe_get_queryset db u (some "1,abc") = Except.error PyExc.valueError
      ∧ PyExc.valueError.isClientError = false :=
  ⟨rfl, rfl⟩

/-- C9: a present-but-empty `tags` parameter is falsy, so the request
behaves exactly as if the parameter were absent: no parsing, no error,
and all of the caller's recipes are returned. -/
theorem empty_tags_param_like_absent (db : DB) (u : Nat) :
    recipe_get_queryset db u (some "") = recipe_get_queryset db u none
      ∧ ∃ l, recipe_get_queryset db u (some "") = Except.ok l
          ∧ (∀ r, r ∈ l ↔ r ∈ db.recipes ∧ r.user = u)
          ∧ l.Nodup ∧ l.Pairwise idDesc := by
  refine ⟨rfl, distinctRows (orderByIdDesc (db.recipes.filter fun r => r.user = u)),
    rfl, ?_, nodup_distinctRows _, pairwise_distinctRows (pairwise_orderByIdDesc _)⟩
  intro r
  exact mem_finalize

/-! ### Tag queryset helpers -/

lemma mem_tag_get_queryset {t : Tag} {db : DB} {u : Nat} :
    t ∈ tag_get_queryset db u ↔ t ∈ db.tags ∧ t.user = u := by
  unfold tag_get_queryset
  rw [(List.perm_insertionSort nameDesc _).mem_iff, List.mem_filter]
  simp

lemma tag_get_object_spec {db : DB} {u tid : Nat} {t : Tag}
    (h : tag_get_object db u tid = some t) :
    t ∈ db.tags ∧ t.user = u ∧ t.id = tid := by
  have hmem := List.mem_of_find?_eq_some h
  have hp := List.find?_some h
  rcases mem_tag_get_queryset.1 hmem with ⟨hdb, hu⟩
  exact ⟨hdb, hu, by simpa using hp⟩

/-- C7: `GET /tags/` returns exactly the caller's tags ordered by
descending name, and `PATCH`/`DELETE` on a tag succeed only when the
tag belongs to the caller. -/
theorem tags_scoped_to_owner_and_ordered (db : DB) (u : Nat) :
    (∀ t, t ∈ tag_get_queryset db u ↔ t ∈ db.tags ∧ t.user = u)
    ∧ (tag_get_queryset db u).Pairwise nameDesc
    ∧ (∀ tid newName, (tag_update db u tid newName).1 = 200 →
        ∃ t ∈ db.tags, t.user = u ∧ t.id = tid)
    ∧ (∀ tid, (tag_destroy db u tid).1 = 204 →
        ∃ t ∈ db.tags, t.user = u ∧ t.id = tid) := by
  refine ⟨fun t => mem_tag_get_queryset, List.sorted_insertionSort nameDesc _, ?_, ?_⟩
  · intro tid newName hst
    cases h : tag_get_object db u tid with
    | none => simp [tag_update, h] at hst
    | some t =>
        rcases tag_get_object_spec h with ⟨hdb, hu, hid⟩
        exact ⟨t, hdb, hu, hid⟩
  · intro tid hst
    cases h : tag_get_object db u tid with
    | none => simp [tag_destroy, h] at hst
    | some t =>
        rcases tag_get_object_spec h with ⟨hdb, hu, hid⟩
        exact ⟨t, hdb, hu, hid⟩

/-! ### Recipe update: the owner is never written -/

lemma map_user_of_map_update (l : List Recipe) (p : UpdatePayload) (c : Recipe → Bool) :
    ((l.map fun x => if c x then recipe_apply_update x p else x).map Recipe.user) =
      l.map Recipe.user := by
  induction l with
  | nil => rfl
  | cons a t ih =>
      simp only [List.map_cons, ih]
      congr 1
      by_cases hc : c a
      · simp [hc, recipe_apply_update]
      · simp [hc]

/-- C2: an update request on an owned recipe always answers 200, and
no update payload — in particular one carrying a `user` field — ever
changes any recipe's persisted owner. -/
theorem recipe_update_never_writes_owner (db : DB) (u rid : Nat) (p : UpdatePayload)
    (r : Recipe) (h : recipe_get_object db u rid = some r) :
    (recipe_update db u rid p).1 = 200
    ∧ (recipe_update db u rid p).2.recipes.map Recipe.user =
        db.recipes.map Recipe.user := by
  constructor
  · rw [recipe_update, h]
  · rw [recipe_update, h]
    exact map_user_of_map_update db.recipes p _

/-- C2 witness: patching recipe 1 of user 1 with a payload that tries
to hand the recipe to user 2. -/
theorem recipe_update_never_writes_owner_witness :
    (recipe_update sampleDB 1 1 { user := some 2 }).1 = 200
    ∧ (recipe_update sampleDB 1 1 { user := some 2 }).2.recipes.map Recipe.user =
        sampleDB.recipes.map Recipe.user :=
  recipe_update_never_writes_owner sampleDB 1 1 { user := some 2 }
    { id := 1, user := 1, title := "recipe1", time_minutes := 22, price := 525,
      description := "Sample description", link := "https://localhost.com", tags := [1] }
    (by decide)

/-- C6: on an owned recipe, a decodable image payload answers 200 with
the stored reference and the target recipe's image becomes that
reference; an undecodable payload answers 400 and leaves the store
untouched. -/
theorem upload_image_replaces_or_rejects (db : DB) (u rid : Nat) (p : ImagePayload)
    (r : Recipe) (h : recipe_get_object db u rid = some r) :
    (p.decodes = true →
        (upload_image db u rid p).1 = 200
        ∧ (upload_image db u rid p).2.2 = some p.ref
        ∧ ∀ x ∈ (upload_image db u rid p).2.1.recipes,
            x.id = r.id → x.user = u → x.image = some p.ref)
    ∧ (p.decodes = false → upload_image db u rid p = (400, db, none)) := by
  constructor
  · intro hd
    rw [upload_image, h]
    rw [hd]
    refine ⟨rfl, rfl, ?_⟩
    intro x hx hid hu
    rcases List.mem_map.1 hx with ⟨y, _, rfl⟩
    by_cases hc : (y.id = r.id && y.user = u) = true
    · simp [hc]
    · rw [if_neg hc] at hid hu ⊢
      exact absurd (by simp [hid, hu]) hc
  · intro hd
    simp [upload_image, h, hd]

/-- C6 witness: a decodable payload on recipe 1 of user 1. -/
theorem upload_image_replaces_or_rejects_witness :
    ((ImagePayload.mk true "uploads/recipe/pic.jpg").decodes = true →
        (upload_image sampleDB 1 1 ⟨true, "uploads/recipe/pic.jpg"⟩).1 = 200
        ∧ (upload_image sampleDB 1 1 ⟨true, "uploads/recipe/pic.jpg"⟩).2.2 =
            some (ImagePayload.mk true "uploads/recipe/pic.jpg").ref
        ∧ ∀ x ∈ (upload_image sampleDB 1 1 ⟨true, "uploads/recipe/pic.jpg"⟩).2.1.recipes,
            x.id = ({ id := 1, user := 1, title := "recipe1", time_minutes := 22,
                      price := 525, description := "Sample description",
                      link := "https://localhost.com", tags := [1] } : Recipe).id →
              x.user = 1 → x.image = some (ImagePayload.mk true "uploads/recipe/pic.jpg").ref)
    ∧ ((ImagePayload.mk true "uploads/recipe/pic.jpg").decodes = false →
        upload_image sampleDB 1 1 ⟨true, "uploads/recipe/pic.jpg"⟩ = (400, sampleDB, none)) :=
  upload_image_replaces_or_rejects sampleDB 1 1 ⟨true, "uploads/recipe/pic.jpg"⟩
    { id := 1, user := 1, title := "recipe1", time_minutes := 22, price := 525,
      description := "Sample description", link := "https://localhost.com", tags := [1] }
    (by decide)

/-- C5: a registration whose password is shorter than the minimum
length answers 400 and the store is unchanged — no user row is
persisted. -/
theorem short_password_rejected_no_write (db : DB) (email pw name : String)
    (h : pw.length < MIN_PASSWORD_LENGTH) :
    create_user_endpoint db email pw name = (400, db) := by
  unfold create_user_endpoint
  rw [if_pos h]

/-- C5 witness: the two-character password "pw" from
`test_password_too_short_error`. -/
theorem short_password_rejected_no_write_witness :
    ("pw".length < MIN_PASSWORD_LENGTH)
    ∧ create_user_endpoint sampleDB "test@example.com" "pw" "Test Name" = (400, sampleDB) :=
  ⟨by decide,
   short_password_rejected_no_write sampleDB "test@example.com" "pw" "Test Name" (by decide)⟩

/-! ### Email normalization -/

lemma splitAtLastAt_of_no_at {cs : List Char} (h : '@' ∉ cs) :
    splitAtLastAt cs = none := by
  induction cs with
  | nil => rfl
  | cons c cs ih =>
      have hc : c ≠ '@' := fun e => h (e ▸ List.mem_cons_self c cs)
      have hcs : '@' ∉ cs := fun m => h (List.mem_cons_of_mem c m)
      simp [splitAtLastAt, ih hcs, hc]

lemma splitAtLastAt_append (l : List Char) {d : List Char} (hd : '@' ∉ d) :
    splitAtLastAt (l ++ '@' :: d) = some (l, d) := by
  induction l with
  | nil => simp [splitAtLastAt, splitAtLastAt_of_no_at hd]
  | cons c cs ih => simp [splitAtLastAt, ih]

lemma normalizeEmailList_append (l : List Char) {d : List Char} (hd : '@' ∉ d) :
    normalizeEmailList (l ++ '@' :: d) = l ++ '@' :: d.map Char.toLower := by
  unfold normalizeEmailList
  rw [splitAtLastAt_append l hd]

/-- C8: creating a user with an email of shape `local@domain` (no `@`
in the domain) stores the email with the domain lowercased and the
local part untouched; the factory rejects the empty email with an
error. -/
theorem user_email_domain_normalized (db : DB) (nm : String) (l d : List Char)
    (hd : '@' ∉ d) :
    (∃ u db', create_user db (String.mk (l ++ '@' :: d)) nm = Except.ok (u, db')
        ∧ u.email = String.mk (l ++ '@' :: d.map Char.toLower)
        ∧ db'.users = db.users ++ [u])
    ∧ create_user db "" nm = Except.error PyExc.valueError := by
  constructor
  · have hne : String.mk (l ++ '@' :: d) ≠ "" := by
      intro hEq
      have := congrArg String.data hEq
      simp at this
    have hcu : create_user db (String.mk (l ++ '@' :: d)) nm =
        Except.ok
          (⟨db.nextUserId, normalize_email (String.mk (l ++ '@' :: d)), nm⟩,
           { db with
             users := db.users ++
               [⟨db.nextUserId, normalize_email (String.mk (l ++ '@' :: d)), nm⟩]
             nextUserId := db.nextUserId + 1 }) := by
      unfold create_user
      rw [if_neg hne]
    refine ⟨_, _, hcu, ?_, rfl⟩
    show normalize_email (String.mk (l ++ '@' :: d)) = _
    unfold normalize_email
    rw [show (String.mk (l ++ '@' :: d)).data = l ++ '@' :: d from rfl,
      normalizeEmailList_append l hd]
  · rfl

/-- C8 witness: `Test1@Gmail.com` normalizes to `Test1@gmail.com`, one
of the sample rows of `test_new_user_email_normalized`. -/
theorem user_email_domain_normalized_witness :
    (∃ u db', create_user sampleDB (String.mk ("Test1".data ++ '@' :: "Gmail.com".data)) "S"
          = Except.ok (u, db')
        ∧ u.email = String.mk ("Test1".data ++ '@' :: "Gmail.com".data.map Char.toLower)
        ∧ db'.users = sampleDB.users ++ [u])
    ∧ create_user sampleDB "" "S" = Except.error PyExc.valueError :=
  user_email_domain_normalized sampleDB "S" "Test1".data "Gmail.com".data (by decide)

/-! ### wait_for_db -/

/-- C10: the `wait_for_db` loop makes one `check` call per iteration
and sleeps once after each caught failure; for any prefix of caught
failures (`Psycopg2Error`/`OperationalError`) followed by a success it
returns after exactly `n + 1` checks and `n` sleeps; while every check
so far failed with a caught error it is still looping after `n` checks
and `n` sleeps; any other exception escapes the loop uncaught. -/
theorem wait_for_db_terminates_on_first_success (pre rest : List CheckResult)
    (h : ∀ r ∈ pre, r = CheckResult.psycopg2Error ∨ r = CheckResult.operationalError) :
    wait_for_db_handle (pre ++ CheckResult.ok :: rest) =
        WaitOutcome.success (pre.length + 1) pre.length
    ∧ wait_for_db_handle pre = WaitOutcome.pending pre.length pre.length
    ∧ wait_for_db_handle (pre ++ CheckResult.otherError :: rest) =
        WaitOutcome.raised (pre.length + 1) pre.length := by
  induction pre with
  | nil => exact ⟨rfl, rfl, rfl⟩
  | cons c cs ih =>
      have hc := h c (List.mem_cons_self c cs)
      have hcs : ∀ r ∈ cs, r = CheckResult.psycopg2Error ∨ r = CheckResult.operationalError :=
        fun r hr => h r (List.mem_cons_of_mem c hr)
      obtain ⟨h1, h2, h3⟩ := ih hcs
      rcases hc with rfl | rfl <;>
        exact ⟨by simp [wait_for_db_handle, h1, WaitOutcome.afterRetry],
               by simp [wait_for_db_handle, h2, WaitOutcome.afterRetry],
               by simp [wait_for_db_handle, h3, WaitOutcome.afterRetry]⟩

/-- C10 witness: the failure script of `test_wait_for_db_delay` — two
`Psycopg2Error`s, three `OperationalError`s, then success: six checks,
five sleeps. -/
theorem wait_for_db_terminates_on_first_success_witness :
    wait_for_db_handle
        ([CheckResult.psycopg2Error, CheckResult.psycopg2Error, CheckResult.operationalError,
          CheckResult.operationalError, CheckResult.operationalError] ++ CheckResult.ok :: []) =
        WaitOutcome.success
          ([CheckResult.psycopg2Error, CheckResult.psycopg2Error, CheckResult.operationalError,
            CheckResult.operationalError, CheckResult.operationalError].length + 1)
          [CheckResult.psycopg2Error, CheckResult.psycopg2Error, CheckResult.operationalError,
            CheckResult.operationalError, CheckResult.operationalError].length
    ∧ wait_for_db_handle
        [CheckResult.psycopg2Error, CheckResult.psycopg2Error, CheckResult.operationalError,
          CheckResult.operationalError, CheckResult.operationalError] =
        WaitOutcome.pending
          [CheckResult.psycopg2Error, CheckResult.psycopg2Error, CheckResult.operationalError,
            CheckResult.operationalError, CheckResult.operationalError].length
          [CheckResult.psycopg2Error, CheckResult.psycopg2Error, CheckResult.operationalError,
            CheckResult.operationalError, CheckResult.operationalError].length
    ∧ wait_for_db_handle
        ([CheckResult.psycopg2Error, CheckResult.psycopg2Error, CheckResult.operationalError,
          CheckResult.operationalError, CheckResult.operationalError] ++
            CheckResult.otherError :: []) =
        WaitOutcome.raised
          ([CheckResult.psycopg2Error, CheckResult.psycopg2Error, CheckResult.operationalError,
            CheckResult.operationalError, CheckResult.operationalError].length + 1)
          [CheckResult.psycopg2Error, CheckResult.psycopg2Error, CheckResult.operationalError,
            CheckResult.operationalError, CheckResult.operationalError].length :=
  wait_for_db_terminates_on_first_success
    [CheckResult.psycopg2Error, CheckResult.psycopg2Error, CheckResult.operationalError,
      CheckResult.operationalError, CheckResult.operationalError] [] (by decide)

/-! ### Tag get-or-create: resolution lemmas -/

lemma find?_append_of_some {α : Type} {p : α → Bool} {l1 l2 : List α} {a : α}
    (h : l1.find? p = some a) : (l1 ++ l2).find? p = some a := by
  rw [List.find?_append, h]
  rfl

lemma resolveTags_cons (db : DB) (u : Nat) (n : String) (ns : List String) :
    resolveTags db u (n :: ns) =
      ((getOrCreateTag db u n).1.id :: (resolveTags (getOrCreateTag db u n).2 u ns).1,
       (resolveTags (getOrCreateTag db u n).2 u ns).2) :=
  rfl

lemma getOrCreateTag_of_find {db : DB} {u : Nat} {n : String} {t : Tag}
    (h : db.tags.find? (tagMatch u n) = some t) :
    getOrCreateTag db u n = (t, db) := by
  simp [getOrCreateTag, h]

lemma getOrCreateTag_tags (db : DB) (u : Nat) (n : String) :
    ∃ extra, (getOrCreateTag db u n).2.tags = db.tags ++ extra := by
  cases h : db.tags.find? (tagMatch u n) with
  | some t => exact ⟨[], by rw [getOrCreateTag_of_find h]; simp⟩
  | none =>
      refine ⟨[⟨db.nextTagId, u, n⟩], ?_⟩
      simp [getOrCreateTag, h]

lemma resolveTags_tags (u : Nat) :
    ∀ (ns : List String) (db : DB),
      ∃ extra, (resolveTags db u ns).2.tags = db.tags ++ extra := by
  intro ns
  induction ns with
  | nil => exact fun db => ⟨[], by simp [resolveTags]⟩
  | cons n ns ih =>
      intro db
      obtain ⟨e1, he1⟩ := getOrCreateTag_tags db u n
      obtain ⟨e2, he2⟩ := ih (getOrCreateTag db u n).2
      refine ⟨e1 ++ e2, ?_⟩
      rw [resolveTags_cons]
      dsimp only
      rw [he2, he1, List.append_assoc]

lemma getOrCreateTag_find (db : DB) (u : Nat) (n : String) :
    (getOrCreateTag db u n).2.tags.find? (tagMatch u n) =
      some (getOrCreateTag db u n).1 := by
  cases h : db.tags.find? (tagMatch u n) with
  | some t => rw [getOrCreateTag_of_find h]; exact h
  | none =>
      simp only [getOrCreateTag, h]
      rw [List.find?_append, h]
      simp [tagMatch]

lemma resolveTags_find_stable {db : DB} {u : Nat} {n : String} {t : Tag}
    (h : db.tags.find? (tagMatch u n) = some t) (ns : List String) :
    (resolveTags db u ns).2.tags.find? (tagMatch u n) = some t := by
  obtain ⟨extra, he⟩ := resolveTags_tags u ns db
  rw [he]
  exact find?_append_of_some h

lemma resolveTags_idem (u : Nat) :
    ∀ (ns : List String) (db : DB),
      resolveTags (resolveTags db u ns).2 u ns = resolveTags db u ns := by
  intro ns
  induction ns with
  | nil => intro db; rfl
  | cons n ns ih =>
      intro db
      have hfind1 : (getOrCreateTag db u n).2.tags.find? (tagMatch u n) =
          some (getOrCreateTag db u n).1 := getOrCreateTag_find db u n
      have hfind2 :
          (resolveTags (getOrCreateTag db u n).2 u ns).2.tags.find? (tagMatch u n) =
            some (getOrCreateTag db u n).1 := resolveTags_find_stable hfind1 ns
      have hg := getOrCreateTag_of_find hfind2
      rw [resolveTags_cons db u n ns]
      dsimp only
      rw [resolveTags_cons, hg]
      dsimp only
      rw [ih (getOrCreateTag db u n).2]

lemma resolveTags_append (u : Nat) (l2 : List String) :
    ∀ (l1 : List String) (db : DB),
      resolveTags db u (l1 ++ l2) =
        ((resolveTags db u l1).1 ++ (resolveTags (resolveTags db u l1).2 u l2).1,
         (resolveTags (resolveTags db u l1).2 u l2).2) := by
  intro l1
  induction l1 with
  | nil => intro db; rfl
  | cons n ns ih =>
      intro db
      show resolveTags db u (n :: (ns ++ l2)) = _
      rw [resolveTags_cons db u n (ns ++ l2), ih (getOrCreateTag db u n).2,
        resolveTags_cons db u n ns]
      simp

lemma resolveTags_double (db : DB) (u : Nat) (ns : List String) :
    resolveTags db u (ns ++ ns) =
      ((resolveTags db u ns).1 ++ (resolveTags db u ns).1, (resolveTags db u ns).2) := by
  rw [resolveTags_append u ns ns db, resolveTags_idem u ns db]

lemma resolveTags_length (u : Nat) :
    ∀ (ns : List String) (db : DB), (resolveTags db u ns).1.length = ns.length := by
  intro ns
  induction ns with
  | nil => intro db; rfl
  | cons n ns ih =>
      intro db
      rw [resolveTags_cons]
      simp [ih]

/-! ### Tag get-or-create: the owned name set -/

lemma mem_userTagNames {db : DB} {u : Nat} {x : String} :
    x ∈ userTagNames db u ↔ ∃ t, t ∈ db.tags ∧ t.user = u ∧ t.name = x := by
  unfold userTagNames
  simp only [List.mem_map, List.mem_filter]
  constructor
  · rintro ⟨t, ⟨ht, hu⟩, rfl⟩
    exact ⟨t, ht, by simpa using hu, rfl⟩
  · rintro ⟨t, ht, hu, rfl⟩
    exact ⟨t, ⟨ht, by simpa using hu⟩, rfl⟩

lemma find?_none_iff_not_mem {db : DB} {u : Nat} {n : String} :
    db.tags.find? (tagMatch u n) = none ↔ n ∉ userTagNames db u := by
  rw [List.find?_eq_none]
  constructor
  · intro h hmem
    rcases mem_userTagNames.1 hmem with ⟨t, ht, hu, hn⟩
    exact h t ht (by simp [tagMatch, hu, hn])
  · intro h t ht hp
    have hp' : t.user = u ∧ t.name = n := by simpa [tagMatch] using hp
    exact h (mem_userTagNames.2 ⟨t, ht, hp'.1, hp'.2⟩)

lemma userTagNames_getOrCreate_new {db : DB} {u : Nat} {n : String}
    (h : db.tags.find? (tagMatch u n) = none) :
    userTagNames (getOrCreateTag db u n).2 u = userTagNames db u ++ [n] := by
  simp [getOrCreateTag, h, userTagNames, List.filter_append]

lemma resolveTags_names (u : Nat) :
    ∀ (ns : List String) (db : DB), (userTagNames db u).Nodup →
      (userTagNames (resolveTags db u ns).2 u).Nodup
      ∧ ∀ x, x ∈ userTagNames (resolveTags db u ns).2 u ↔
          x ∈ userTagNames db u ∨ x ∈ ns := by
  intro ns
  induction ns with
  | nil => intro db h; exact ⟨h, fun x => by simp [resolveTags]⟩
  | cons n ns ih =>
      intro db h
      rw [resolveTags_cons]
      dsimp only
      cases hf : db.tags.find? (tagMatch u n) with
      | some t =>
          have hdb : getOrCreateTag db u n = (t, db) := getOrCreateTag_of_find hf
          rw [hdb]
          have hp : t.user = u ∧ t.name = n := by
            simpa [tagMatch] using List.find?_some hf
          have hn : n ∈ userTagNames db u :=
            mem_userTagNames.2 ⟨t, List.mem_of_find?_eq_some hf, hp.1, hp.2⟩
          obtain ⟨h1, h2⟩ := ih db h
          refine ⟨h1, fun x => ?_⟩
          rw [h2 x]
          constructor
          · rintro (hx | hx)
            · exact Or.inl hx
            · exact Or.inr (List.mem_cons_of_mem n hx)
          · rintro (hx | hx)
            · exact Or.inl hx
            · rcases List.mem_cons.1 hx with rfl | hx'
              · exact Or.inl hn
              · exact Or.inr hx'
      | none =>
          have hnames := userTagNames_getOrCreate_new hf
          have hnotin : n ∉ userTagNames db u := find?_none_iff_not_mem.1 hf
          have hnodup : (userTagNames (getOrCreateTag db u n).2 u).Nodup := by
            rw [hnames]
            simp [List.nodup_append, h, hnotin]
          obtain ⟨h1, h2⟩ := ih (getOrCreateTag db u n).2 hnodup
          refine ⟨h1, fun x => ?_⟩
          rw [h2 x, hnames]
          simp only [List.mem_append, List.mem_singleton, List.mem_cons]
          tauto

/-- C4: starting from a store where the user owns no tags, resolving a
tag-name list `ns` resolves every name (one id per input name), makes
the user's owned tag names exactly the distinct names supplied (no
per-recipe duplicates), and resolving the same names again — or the
same name twice in one list — reuses the same tags instead of creating
new ones. -/
theorem tags_resolved_by_get_or_create (db : DB) (u : Nat) (ns : List String)
    (h : userTagNames db u = []) :
    (resolveTags db u ns).1.length = ns.length
    ∧ (∀ x, x ∈ userTagNames (resolveTags db u ns).2 u ↔ x ∈ ns)
    ∧ (userTagNames (resolveTags db u ns).2 u).Nodup
    ∧ (userTagNames (resolveTags db u ns).2 u).length = ns.dedup.length
    ∧ resolveTags db u (ns ++ ns) =
        ((resolveTags db u ns).1 ++ (resolveTags db u ns).1, (resolveTags db u ns).2)
    ∧ ∀ n, ((resolveTags db u [n, n]).1).dedup.length = 1 := by
  have hnodup0 : (userTagNames db u).Nodup := by rw [h]; exact List.nodup_nil
  obtain ⟨hnd, hmem⟩ := resolveTags_names u ns db hnodup0
  have hmem' : ∀ x, x ∈ userTagNames (resolveTags db u ns).2 u ↔ x ∈ ns := by
    intro x
    rw [hmem x, h]
    simp
  refine ⟨resolveTags_length u ns db, hmem', hnd, ?_, resolveTags_double db u ns, ?_⟩
  · have hfin : (userTagNames (resolveTags db u ns).2 u).toFinset = ns.toFinset := by
      apply Finset.ext
      intro a
      rw [List.mem_toFinset, List.mem_toFinset, hmem' a]
    rw [← List.toFinset_card_of_nodup hnd, hfin, List.card_toFinset]
  · intro n
    have hids : (resolveTags db u [n]).1 = [(getOrCreateTag db u n).1.id] := rfl
    rw [show ([n, n] : List String) = [n] ++ [n] from rfl, resolveTags_double db u [n], hids]
    simp

/-- C4 witness: user 2 owns no tags in the sample store; resolving
`["Thai", "Dinner"]` behaves as claimed. -/
theorem tags_resolved_by_get_or_create_witness :
    (resolveTags sampleDB 2 ["Thai", "Dinner"]).1.length = (["Thai", "Dinner"] : List String).length
    ∧ (∀ x, x ∈ userTagNames (resolveTags sampleDB 2 ["Thai", "Dinner"]).2 2 ↔
        x ∈ (["Thai", "Dinner"] : List String))
    ∧ (userTagNames (resolveTags sampleDB 2 ["Thai", "Dinner"]).2 2).Nodup
    ∧ (userTagNames (resolveTags sampleDB 2 ["Thai", "Dinner"]).2 2).length =
        (["Thai", "Dinner"] : List String).dedup.length
    ∧ resolveTags sampleDB 2 (["Thai", "Dinner"] ++ ["Thai", "Dinner"]) =
        ((resolveTags sampleDB 2 ["Thai", "Dinner"]).1 ++
            (resolveTags sampleDB 2 ["Thai", "Dinner"]).1,
         (resolveTags sampleDB 2 ["Thai", "Dinner"]).2)
    ∧ ∀ n, ((resolveTags sampleDB 2 [n, n]).1).dedup.length = 1 :=
  tags_resolved_by_get_or_create sampleDB 2 ["Thai", "Dinner"] (by decide)

end RecipeApp
